import Mathlib

/-!
Shallow embedding of `glsexpand.cpp`: a glossary/acronym expander for a small
LaTeX-like markup language.  The program parses the input with a Boost.Spirit
PEG grammar into a sequence of entries (literal text, acronym definitions,
references), builds a name-keyed dictionary of definitions (last one wins),
expands every reference using a first-use / subsequent-use policy with
plural/uppercase modifiers, and finally strips `\addition[...]{...}` wrappers
from the expanded text.

The grammar rules are modelled as PEG parsers over `List Char`; recursive
rules take an explicit fuel argument (the fuel supplied at the top level is
always larger than any possible recursion depth, so it never runs out on the
inputs the theorems below evaluate).
-/

namespace ast

/-- Flag bit `ast::None` from the source enum. -/
def None : Nat := 0

/-- Flag bit `ast::Plural` from the source enum. -/
def Plural : Nat := 1

/-- Flag bit `ast::Uppercase` from the source enum. -/
def Uppercase : Nat := 2

/-- Flag bit `ast::First` from the source enum. -/
def First : Nat := 4

/-- `ast::ModifiersMask = Plural | Uppercase`. -/
def ModifiersMask : Nat := Plural ||| Uppercase

/-- Abbreviation definition record (`ast::Abbreviation`). -/
structure Abbreviation where
  name : String
  shortName : String
  value : String
deriving DecidableEq

/-- Reference to an abbreviation (`ast::Reference`). -/
structure Reference where
  name : String
  flags : Nat
deriving DecidableEq

end ast

/-- One parsed entry: the `variant<string, Reference, Abbreviation>` in `main`. -/
inductive Entry where
  | literal : String → Entry
  | reference : ast.Reference → Entry
  | abbreviation : ast.Abbreviation → Entry
deriving DecidableEq

namespace gls

/-- PEG parser type: on success return the attribute and the remaining input. -/
abbrev P (α : Type) : Type := List Char → Option (α × List Char)

/-- Literal string parser (`lit("...")` / implicit string literals). -/
def litP : List Char → P Unit
  | [], cs => some ((), cs)
  | _ :: _, [] => none
  | p :: ps, c :: cs => if c = p then litP ps cs else none

/-- The `alpha` character class (ASCII letters), used by `+alpha`. -/
def alphaChar (c : Char) : Bool :=
  ('a' ≤ c && c ≤ 'z') || ('A' ≤ c && c ≤ 'Z')

/-- `text_def = lexeme[+(char_ - '{' - '}')]`. -/
def text : P String := fun cs =>
  let t := cs.takeWhile fun c => !(c == '{' || c == '}')
  if t.isEmpty then none else some (String.mk t, cs.drop t.length)

mutual

/-- `nested_def = +(text | nested_group)`: first item of the repetition. -/
def nested : Nat → P String
  | 0, _ => none
  | f + 1, cs =>
    match nestedItem f cs with
    | none => none
    | some (s, cs₁) => nestedRest f s cs₁

/-- One alternative `text | nested_group` inside `nested_def`. -/
def nestedItem : Nat → P String
  | 0, _ => none
  | f + 1, cs =>
    match text cs with
    | some r => some r
    | none => nested_group f cs

/-- Greedy continuation of the `+(text | nested_group)` repetition. -/
def nestedRest : Nat → String → P String
  | 0, _, _ => none
  | f + 1, acc, cs =>
    match nestedItem f cs with
    | none => some (acc, cs)
    | some (s, cs₁) => nestedRest f (acc ++ s) cs₁

/-- `nested_group_def = char_('{') >> nested >> char_('}')` (keeps the braces). -/
def nested_group : Nat → P String
  | 0, _ => none
  | f + 1, cs =>
    match cs with
    | '{' :: cs₁ =>
      match nested f cs₁ with
      | none => none
      | some (s, cs₂) =>
        match cs₂ with
        | '}' :: cs₃ => some ("\x7b" ++ s ++ "\x7d", cs₃)
        | _ => none
    | _ => none

end

/-- `group_def = '{' >> -nested >> '}'` (strips the outer braces). -/
def group : Nat → P String
  | 0, _ => none
  | f + 1, cs =>
    match cs with
    | '{' :: cs₁ =>
      match nested f cs₁ with
      | some (s, cs₂) =>
        match cs₂ with
        | '}' :: cs₃ => some (s, cs₃)
        | _ => none
      | none =>
        match cs₁ with
        | '}' :: cs₃ => some ("", cs₃)
        | _ => none
    | _ => none

/-- The `group` rule with enough fuel for its input (recursion consumes input). -/
def groupP : P String := fun cs => group (3 * cs.length + 3) cs

/-- `options_def = '[' >> *(char_ - ']') >> ']'`. -/
def options : P String := fun cs =>
  match cs with
  | '[' :: cs₁ =>
    let t := cs₁.takeWhile fun c => !(c == ']')
    match cs₁.drop t.length with
    | ']' :: cs₂ => some (String.mk t, cs₂)
    | _ => none
  | _ => none

/-- `addition_def = "\addition" >> omit[options] >> group`. -/
def addition : P String := fun cs => do
  let (_, cs₁) ← litP "\\addition".data cs
  let (_, cs₂) ← options cs₁
  groupP cs₂

/-- `newacronym_def = "\newacronym" >> group >> group >> group`. -/
def newacronym : P ast.Abbreviation := fun cs => do
  let (_, cs₁) ← litP "\\newacronym".data cs
  let (a, cs₂) ← groupP cs₁
  let (b, cs₃) ← groupP cs₂
  let (c, cs₄) ← groupP cs₃
  some ({ name := a, shortName := b, value := c }, cs₄)

/-- `gls_def = lit("\gls") >> group`, flags `ast::None`. -/
def gls : P ast.Reference := fun cs => do
  let (_, cs₁) ← litP "\\gls".data cs
  let (n, cs₂) ← groupP cs₁
  some ({ name := n, flags := ast.None }, cs₂)

/-- `Gls_def = lit("\Gls") >> group`, flags `ast::Uppercase`. -/
def Gls : P ast.Reference := fun cs => do
  let (_, cs₁) ← litP "\\Gls".data cs
  let (n, cs₂) ← groupP cs₁
  some ({ name := n, flags := ast.Uppercase }, cs₂)

/-- `glspl_def = lit("\glspl") >> group`, flags `ast::Plural`. -/
def glspl : P ast.Reference := fun cs => do
  let (_, cs₁) ← litP "\\glspl".data cs
  let (n, cs₂) ← groupP cs₁
  some ({ name := n, flags := ast.Plural }, cs₂)

/-- `Glspl_def = lit("\Glspl") >> group`, flags `ast::Uppercase | ast::Plural`. -/
def Glspl : P ast.Reference := fun cs => do
  let (_, cs₁) ← litP "\\Glspl".data cs
  let (n, cs₂) ← groupP cs₁
  some ({ name := n, flags := ast.Uppercase ||| ast.Plural }, cs₂)

/-- `Glsfirst_def = lit("\Glsfirst") >> group`, flags `ast::Uppercase | ast::First`. -/
def Glsfirst : P ast.Reference := fun cs => do
  let (_, cs₁) ← litP "\\Glsfirst".data cs
  let (n, cs₂) ← groupP cs₁
  some ({ name := n, flags := ast.Uppercase ||| ast.First }, cs₂)

/-- `gls_other = lit("\gls") >> +alpha` (attribute discarded by `omit`). -/
def gls_other : P Unit := fun cs => do
  let (_, cs₁) ← litP "\\gls".data cs
  let t := cs₁.takeWhile alphaChar
  if t.isEmpty then none else some ((), cs₁.drop t.length)

/-- `gls_commands = newacronym | gls | glspl | Gls | Glsfirst | Glspl` (PEG ordered choice). -/
def gls_commands : P Entry := fun cs =>
  match newacronym cs with
  | some (a, r) => some (Entry.abbreviation a, r)
  | none =>
  match gls cs with
  | some (v, r) => some (Entry.reference v, r)
  | none =>
  match glspl cs with
  | some (v, r) => some (Entry.reference v, r)
  | none =>
  match Gls cs with
  | some (v, r) => some (Entry.reference v, r)
  | none =>
  match Glsfirst cs with
  | some (v, r) => some (Entry.reference v, r)
  | none =>
  match Glspl cs with
  | some (v, r) => some (Entry.reference v, r)
  | none => none

/-- Does one of the five subtracted keyword literals match at this position?
    (`char_ - "\newacronym" - "\gls" - "\glspl" - "\Gls" - "\Glspl"` fails here.) -/
def stopsHere (cs : List Char) : Bool :=
  "\\newacronym".data.isPrefixOf cs || "\\gls".data.isPrefixOf cs ||
    "\\glspl".data.isPrefixOf cs || "\\Gls".data.isPrefixOf cs ||
    "\\Glspl".data.isPrefixOf cs

/-- Greedy run of `+(char_ - keywords)`: the consumed run and the rest. -/
def litRun : List Char → List Char × List Char
  | [] => ([], [])
  | c :: cs =>
    if stopsHere (c :: cs) then ([], c :: cs)
    else
      let (a, b) := litRun cs
      (c :: a, b)

/-- `gls_tokens = *(gls_commands | omit[gls_other] | +(char_ - keywords)) >> eoi`. -/
def gls_tokensF : Nat → List Char → Option (List Entry)
  | 0, _ => none
  | f + 1, cs =>
    match gls_commands cs with
    | some (e, cs₁) => (gls_tokensF f cs₁).map (fun es => e :: es)
    | none =>
    match gls_other cs with
    | some (_, cs₁) => gls_tokensF f cs₁
    | none =>
    match litRun cs with
    | ([], _) => if cs.isEmpty then some [] else none
    | (run, cs₁) => (gls_tokensF f cs₁).map (fun es => Entry.literal (String.mk run) :: es)

/-- The glossary tokenizer pass (`parse(..., gls::gls_tokens, values)`). -/
def gls_tokens (s : String) : Option (List Entry) :=
  gls_tokensF (s.length + 1) s.data

/-- Does the literal `"\addition"` occur anywhere in the input? -/
def containsAddition : List Char → Bool
  | [] => false
  | c :: cs => "\\addition".data.isPrefixOf (c :: cs) || containsAddition cs

/-- Greedy run of `+(char_ - "\addition")`: the consumed run and the rest. -/
def addRun : List Char → List Char × List Char
  | [] => ([], [])
  | c :: cs =>
    if "\\addition".data.isPrefixOf (c :: cs) then ([], c :: cs)
    else
      let (a, b) := addRun cs
      (c :: a, b)

/-- `addition_tokens = *(addition | +(char_ - "\addition")) >> eoi`. -/
def addition_tokensF : Nat → List Char → Option String
  | 0, _ => none
  | f + 1, cs =>
    match addition cs with
    | some (s, cs₁) => (addition_tokensF f cs₁).map (fun t => s ++ t)
    | none =>
    match addRun cs with
    | ([], _) => if cs.isEmpty then some "" else none
    | (run, cs₁) => (addition_tokensF f cs₁).map (fun t => String.mk run ++ t)

/-- The addition-unwrapping pass (`parse(..., gls::addition_tokens, expanded)`). -/
def addition_tokens (s : String) : Option String :=
  addition_tokensF (s.length + 1) s.data

end gls

/-- The dictionary type: `std::map<std::string, std::pair<ast::Abbreviation, bool>>`. -/
abbrev Dict : Type := String → Option (ast.Abbreviation × Bool)

/-- The empty dictionary. -/
def emptyDict : Dict := fun _ => none

/-- `dict[k] = v`: insert or overwrite the entry for key `k`. -/
def updateDict (d : Dict) (k : String) (v : ast.Abbreviation × Bool) : Dict :=
  fun n => if n = k then some v else d n

/-- One visitor step of `BuildDictionary`: definitions are inserted with
    `usedFlag = false`, overwriting any previous entry; other entries ignored. -/
def BuildDictionary.step (dict : Dict) : Entry → Dict
  | Entry.abbreviation value => updateDict dict value.name (value, false)
  | _ => dict

/-- The dictionary build pass: fold `BuildDictionary` over the parsed sequence. -/
def BuildDictionary (doc : List Entry) : Dict :=
  doc.foldl BuildDictionary.step emptyDict

/-- Does the entry list contain any `Entry.abbreviation`?  (Used to state the
    last-wins dictionary property for documents with no other definitions.) -/
def hasAbbreviation : List Entry → Bool
  | [] => false
  | Entry.abbreviation _ :: _ => true
  | _ :: rest => hasAbbreviation rest

/-- `make_uppercase`: upper-case the first character (classic locale), keep the rest. -/
def make_uppercase (value : String) : String :=
  match value.data with
  | [] => ""
  | c :: rest => String.mk (Char.toUpper c :: rest)

namespace Expand

/-- `Expand::operator()(const ast::Reference&)`: look up the name; on a hit,
    render according to the modifier bits and the used flag, then set the used
    flag; on a miss throw `runtime_error("missing definition for " + name)`. -/
def reference (definitions : Dict) (value : ast.Reference) : Except String (String × Dict) :=
  match definitions value.name with
  | none => Except.error ("missing definition for " ++ value.name)
  | some (abbr, usedFlag) =>
    let used := usedFlag && !(value.flags &&& ast.First == ast.First)
    let m := value.flags &&& ast.ModifiersMask
    let rendered :=
      if m == ast.None then
        if !used then abbr.value ++ " (" ++ abbr.shortName ++ ")" else abbr.shortName
      else if m == ast.Plural then
        if !used then abbr.value ++ "s" ++ " (" ++ abbr.shortName ++ "s)"
        else abbr.shortName ++ "s"
      else if m == ast.Uppercase then
        if !used then make_uppercase abbr.value ++ " (" ++ abbr.shortName ++ ")"
        else make_uppercase abbr.shortName
      else if m == (ast.Uppercase ||| ast.Plural) then
        if !used then make_uppercase abbr.value ++ "s" ++ " (" ++ abbr.shortName ++ "s)"
        else make_uppercase abbr.shortName ++ "s"
      else ""
    Except.ok (rendered, updateDict definitions value.name (abbr, true))

/-- One visitor step of `Expand`: literals are copied, definitions produce no
    output, references are resolved via `Expand.reference`. -/
def entry (definitions : Dict) : Entry → Except String (String × Dict)
  | Entry.literal s => Except.ok (s, definitions)
  | Entry.reference r => reference definitions r
  | Entry.abbreviation _ => Except.ok ("", definitions)

/-- The expansion pass: visit every entry in order, concatenating output and
    threading the dictionary state. -/
def document : List Entry → Dict → Except String (String × Dict)
  | [], d => Except.ok ("", d)
  | e :: rest, d =>
    match entry d e with
    | Except.error msg => Except.error msg
    | Except.ok (s, d₁) =>
      match document rest d₁ with
      | Except.error msg => Except.error msg
      | Except.ok (t, d₂) => Except.ok (s ++ t, d₂)

end Expand

/-- The whole program (`main` without the file I/O): tokenizer, dictionary
    build, expansion, addition unwrap.  `Except.ok` is the text printed to
    stdout with exit status 0; `Except.error` is the fatal-path diagnostic
    (parse failures print "failed to parse the input"; an undefined reference
    escapes as the `runtime_error` message, terminating with non-zero status). -/
def runMain (input : String) : Except String String :=
  match gls.gls_tokens input with
  | none => Except.error "failed to parse the input"
  | some values =>
    let dict := BuildDictionary values
    match Expand.document values dict with
    | Except.error msg => Except.error msg
    | Except.ok (glsText, _) =>
      match gls.addition_tokens glsText with
      | none => Except.error "failed to parse the input"
      | some expanded => Except.ok expanded

/-! ### Helper lemmas about the dictionary -/

theorem updateDict_self (d : Dict) (k : String) (v : ast.Abbreviation × Bool) :
    updateDict d k v k = some v := by
  simp [updateDict]

theorem updateDict_ne (d : Dict) (k : String) (v : ast.Abbreviation × Bool)
    (n : String) (h : n ≠ k) : updateDict d k v n = d n := by
  simp [updateDict, h]

/-- Expanding any document containing a reference to a name absent from the
    dictionary fails with a `missing definition for` error naming an undefined
    referenced name (expansion never adds or removes dictionary keys, so the
    error survives the fold). -/
theorem Expand.document_error_of_undefined :
    ∀ (doc : List Entry) (d : Dict),
      (∃ r : ast.Reference, Entry.reference r ∈ doc ∧ d r.name = none) →
      ∃ n : String,
        (∃ r : ast.Reference, Entry.reference r ∈ doc ∧ r.name = n ∧ d n = none) ∧
        Expand.document doc d = Except.error ("missing definition for " ++ n) := by
  intro doc
  induction doc with
  | nil =>
    rintro d ⟨r, hmem, -⟩
    exact absurd hmem (List.not_mem_nil _)
  | cons e rest ih =>
    rintro d ⟨r, hmem, hnone⟩
    cases e with
    | literal s =>
      have hmemr : Entry.reference r ∈ rest := by
        rcases List.mem_cons.mp hmem with heq | hmemr
        · exact absurd heq (by simp)
        · exact hmemr
      obtain ⟨n, ⟨r', hr'mem, hr'name, hdn⟩, herr⟩ := ih d ⟨r, hmemr, hnone⟩
      refine ⟨n, ⟨r', List.mem_cons_of_mem _ hr'mem, hr'name, hdn⟩, ?_⟩
      simp [Expand.document, Expand.entry, herr]
    | abbreviation a =>
      have hmemr : Entry.reference r ∈ rest := by
        rcases List.mem_cons.mp hmem with heq | hmemr
        · exact absurd heq (by simp)
        · exact hmemr
      obtain ⟨n, ⟨r', hr'mem, hr'name, hdn⟩, herr⟩ := ih d ⟨r, hmemr, hnone⟩
      refine ⟨n, ⟨r', List.mem_cons_of_mem _ hr'mem, hr'name, hdn⟩, ?_⟩
      simp [Expand.document, Expand.entry, herr]
    | reference r₀ =>
      cases hd : d r₀.name with
      | none =>
        refine ⟨r₀.name, ⟨r₀, List.mem_cons_self _ _, rfl, hd⟩, ?_⟩
        simp [Expand.document, Expand.entry, Expand.reference, hd]
      | some p =>
        obtain ⟨a, b⟩ := p
        have hne : r.name ≠ r₀.name := by
          intro hEq
          rw [hEq, hd] at hnone
          cases hnone
        have hrr : Entry.reference r ∈ rest := by
          rcases List.mem_cons.mp hmem with heq | hm
          · injection heq with h2
            exact absurd (congrArg ast.Reference.name h2) hne
          · exact hm
        have hd' : updateDict d r₀.name (a, true) r.name = none := by
          rw [updateDict_ne _ _ _ _ hne]
          exact hnone
        obtain ⟨n, ⟨r', hr'mem, hr'name, hdn'⟩, herr⟩ :=
          ih (updateDict d r₀.name (a, true)) ⟨r, hrr, hd'⟩
        have hnne : n ≠ r₀.name := by
          intro hEq
          rw [hEq, updateDict_self] at hdn'
          cases hdn'
        have hdn : d n = none := by
          rw [← updateDict_ne d r₀.name (a, true) n hnne]
          exact hdn'
        refine ⟨n, ⟨r', List.mem_cons_of_mem _ hr'mem, hr'name, hdn⟩, ?_⟩
        simp [Expand.document, Expand.entry, Expand.reference, hd, herr]

/-- C1: a reference to a name with no dictionary entry at expansion time makes
    expansion fail fatally: the error is signaled with the offending name and
    aborts expansion, and the whole program run on `\gls{widget}` (with no
    definition of `widget`) reports `missing definition for widget` on the
    fatal (non-zero exit) path. -/
theorem C1_undefined_reference_fatal :
    (∀ (doc : List Entry) (d : Dict),
        (∃ r : ast.Reference, Entry.reference r ∈ doc ∧ d r.name = none) →
        ∃ n : String,
          (∃ r : ast.Reference, Entry.reference r ∈ doc ∧ r.name = n ∧ d n = none) ∧
          Expand.document doc d = Except.error ("missing definition for " ++ n)) ∧
    runMain "\\gls{widget}" = Except.error "missing definition for widget" :=
  ⟨Expand.document_error_of_undefined, rfl⟩

/-- C1 witness: the general statement applied to the one-entry document
    `[\gls{widget}]` with the empty dictionary. -/
theorem C1_undefined_reference_fatal_witness :
    ∃ n : String,
      (∃ r : ast.Reference,
          Entry.reference r ∈ [Entry.reference { name := "widget", flags := ast.None }] ∧
          r.name = n ∧ emptyDict n = none) ∧
      Expand.document [Entry.reference { name := "widget", flags := ast.None }] emptyDict =
        Except.error ("missing definition for " ++ n) :=
  C1_undefined_reference_fatal.1 _ emptyDict
    ⟨{ name := "widget", flags := ast.None }, by simp, rfl⟩

/-- C2: with exactly one definition of a name and two plain references (flags
    `ast::None`) in sequence, the dictionary holds the entry unused, the first
    reference renders `longForm (shortForm)`, and the second (against the
    now-used entry) renders `shortForm` alone. -/
theorem C2_first_then_subsequent :
    (∀ (n s l : String),
        BuildDictionary [Entry.abbreviation { name := n, shortName := s, value := l },
          Entry.reference { name := n, flags := ast.None },
          Entry.reference { name := n, flags := ast.None }] n =
          some ({ name := n, shortName := s, value := l }, false)) ∧
    (∀ (d : Dict) (n : String) (a : ast.Abbreviation), d n = some (a, false) →
        Expand.reference d { name := n, flags := ast.None } =
          Except.ok (a.value ++ " (" ++ a.shortName ++ ")", updateDict d n (a, true)) ∧
        Expand.reference (updateDict d n (a, true)) { name := n, flags := ast.None } =
          Except.ok (a.shortName, updateDict (updateDict d n (a, true)) n (a, true))) := by
  constructor
  · intro n s l
    simp [BuildDictionary, BuildDictionary.step, updateDict, emptyDict]
  · intro d n a h
    constructor
    · unfold Expand.reference
      rw [show ({ name := n, flags := ast.None } : ast.Reference).name = n from rfl, h]
      simp [ast.None, ast.First, ast.Plural, ast.Uppercase, ast.ModifiersMask]
    · unfold Expand.reference
      rw [show ({ name := n, flags := ast.None } : ast.Reference).name = n from rfl,
        updateDict_self]
      simp [ast.None, ast.First, ast.Plural, ast.Uppercase, ast.ModifiersMask]

/-- C2 witness: the rendering statement applied to a concrete unused entry. -/
theorem C2_first_then_subsequent_witness :
    Expand.reference (updateDict emptyDict "cpu" ({ name := "cpu", shortName := "CPU", value := "Central Processing Unit" }, false)) { name := "cpu", flags := ast.None } =
      Except.ok ("Central Processing Unit (CPU)",
        updateDict (updateDict emptyDict "cpu" ({ name := "cpu", shortName := "CPU", value := "Central Processing Unit" }, false)) "cpu"
          ({ name := "cpu", shortName := "CPU", value := "Central Processing Unit" }, true)) :=
  (C2_first_then_subsequent.2 _ "cpu"
    { name := "cpu", shortName := "CPU", value := "Central Processing Unit" } (by rfl)).1

/-- C3: after producing output for a defined reference, the entry's used flag
    is set to true unconditionally (any flags, any previous flag value), and a
    First-flagged reference (`\Glsfirst`: Uppercase|First) rendered as
    first-use is followed by a plain reference rendered as subsequent-use
    (`shortForm`). -/
theorem C3_usedFlag_one_way :
    (∀ (d : Dict) (r : ast.Reference) (a : ast.Abbreviation) (b : Bool),
        d r.name = some (a, b) →
        ∃ out, Expand.reference d r = Except.ok (out, updateDict d r.name (a, true)) ∧
          updateDict d r.name (a, true) r.name = some (a, true)) ∧
    (∀ (d : Dict) (n : String) (a : ast.Abbreviation), d n = some (a, false) →
        Expand.reference d { name := n, flags := ast.Uppercase ||| ast.First } =
          Except.ok (make_uppercase a.value ++ " (" ++ a.shortName ++ ")",
            updateDict d n (a, true)) ∧
        Expand.reference (updateDict d n (a, true)) { name := n, flags := ast.None } =
          Except.ok (a.shortName, updateDict (updateDict d n (a, true)) n (a, true))) := by
  constructor
  · intro d r a b h
    unfold Expand.reference
    rw [h]
    exact ⟨_, rfl, updateDict_self _ _ _⟩
  · intro d n a h
    constructor
    · unfold Expand.reference
      rw [show ({ name := n, flags := ast.Uppercase ||| ast.First } : ast.Reference).name = n
        from rfl, h]
      simp [ast.None, ast.First, ast.Plural, ast.Uppercase, ast.ModifiersMask,
        show ((6 : Nat) &&& 3) = 2 from rfl, show ((6 : Nat) &&& 4) = 4 from rfl]
    · unfold Expand.reference
      rw [show ({ name := n, flags := ast.None } : ast.Reference).name = n from rfl,
        updateDict_self]
      simp [ast.None, ast.First, ast.Plural, ast.Uppercase, ast.ModifiersMask]

/-- C3 witness: the unconditional flag transition applied to a concrete
    dictionary whose entry is already used, with a First-flagged reference. -/
theorem C3_usedFlag_one_way_witness :
    ∃ out, Expand.reference (updateDict emptyDict "q" ({ name := "q", shortName := "Q", value := "Qu" }, true)) { name := "q", flags := ast.Uppercase ||| ast.First } =
        Except.ok (out, updateDict (updateDict emptyDict "q" ({ name := "q", shortName := "Q", value := "Qu" }, true)) "q" ({ name := "q", shortName := "Q", value := "Qu" }, true)) ∧
      updateDict (updateDict emptyDict "q" ({ name := "q", shortName := "Q", value := "Qu" }, true)) "q" ({ name := "q", shortName := "Q", value := "Qu" }, true) "q" =
        some ({ name := "q", shortName := "Q", value := "Qu" }, true) :=
  C3_usedFlag_one_way.1 _ { name := "q", flags := ast.Uppercase ||| ast.First }
    { name := "q", shortName := "Q", value := "Qu" } true (by rfl)

/-- Folding the dictionary-builder over entries with no definitions leaves the
    dictionary unchanged. -/
theorem BuildDictionary.foldl_no_abbreviation :
    ∀ (l : List Entry) (d : Dict), hasAbbreviation l = false →
      l.foldl BuildDictionary.step d = d := by
  intro l
  induction l with
  | nil => intro d _; rfl
  | cons e rest ih =>
    intro d h
    cases e with
    | abbreviation a => simp [hasAbbreviation] at h
    | literal s =>
      rw [List.foldl_cons]
      exact ih d (by simpa [hasAbbreviation] using h)
    | reference r =>
      rw [List.foldl_cons]
      exact ih d (by simpa [hasAbbreviation] using h)

/-- Every used flag in a freshly built dictionary is false (fold invariant). -/
theorem BuildDictionary.usedFlag_false_aux :
    ∀ (doc : List Entry) (d : Dict),
      (∀ n a b, d n = some (a, b) → b = false) →
      ∀ n a b, doc.foldl BuildDictionary.step d n = some (a, b) → b = false := by
  intro doc
  induction doc with
  | nil => intro d h; exact h
  | cons e rest ih =>
    intro d h
    rw [List.foldl_cons]
    refine ih _ ?_
    cases e with
    | abbreviation a' =>
      intro n a b hn
      simp only [BuildDictionary.step] at hn
      by_cases hx : n = a'.name
      · rw [hx, updateDict_self] at hn
        injection hn with hn'
        have h2 := congrArg Prod.snd hn'
        simp at h2
        exact h2
      · rw [updateDict_ne _ _ _ _ hx] at hn
        exact h n a b hn
    | literal s => exact h
    | reference r => exact h

/-- C4 counterexample: the claim quantifies over any document containing two
    same-named definitions; a document that additionally defines a second name
    `b` yields a dictionary with an entry for `b`, which the dictionary built
    from only the second duplicate definition lacks. -/
theorem C4_last_wins_counterexample :
    ¬ (BuildDictionary [Entry.abbreviation { name := "a", shortName := "A1", value := "L1" },
        Entry.abbreviation { name := "a", shortName := "A2", value := "L2" },
        Entry.abbreviation { name := "b", shortName := "B", value := "LB" }] =
      BuildDictionary [Entry.abbreviation { name := "a", shortName := "A2", value := "L2" }]) :=
  fun h => absurd (congrFun h "b") (by decide)

/-- C4 amended: for a document whose only definitions are two with the same
    name, the dictionary built equals the one built from the document holding
    only the second definition; and every entry of any built dictionary has
    its used flag initialized to false. -/
theorem C4_last_wins_amended :
    (∀ (pre mid post : List Entry) (d1 d2 : ast.Abbreviation),
        hasAbbreviation pre = false → hasAbbreviation mid = false →
        hasAbbreviation post = false → d1.name = d2.name →
        BuildDictionary
            (pre ++ Entry.abbreviation d1 :: (mid ++ Entry.abbreviation d2 :: post)) =
          BuildDictionary [Entry.abbreviation d2]) ∧
    (∀ (doc : List Entry) (n : String) (a : ast.Abbreviation) (b : Bool),
        BuildDictionary doc n = some (a, b) → b = false) := by
  constructor
  · intro pre mid post d1 d2 hpre hmid hpost hname
    unfold BuildDictionary
    rw [List.foldl_append, BuildDictionary.foldl_no_abbreviation pre _ hpre, List.foldl_cons,
      List.foldl_append, BuildDictionary.foldl_no_abbreviation mid _ hmid, List.foldl_cons,
      BuildDictionary.foldl_no_abbreviation post _ hpost]
    simp only [BuildDictionary.step, List.foldl_cons, List.foldl_nil]
    funext x
    by_cases hx : x = d2.name <;> simp [updateDict, emptyDict, hx, hname]
  · intro doc n a b h
    exact BuildDictionary.usedFlag_false_aux doc emptyDict
      (fun n a b hn => by simp [emptyDict] at hn) n a b h

/-- C4 witness: the amended last-wins equation at a concrete document with a
    literal before the duplicate pair, and the used-flag invariant at a
    concrete dictionary entry. -/
theorem C4_last_wins_amended_witness :
    BuildDictionary [Entry.literal "x",
        Entry.abbreviation { name := "a", shortName := "A1", value := "L1" },
        Entry.abbreviation { name := "a", shortName := "A2", value := "L2" }] =
      BuildDictionary [Entry.abbreviation { name := "a", shortName := "A2", value := "L2" }] :=
  C4_last_wins_amended.1 [Entry.literal "x"] [] []
    { name := "a", shortName := "A1", value := "L1" }
    { name := "a", shortName := "A2", value := "L2" } rfl rfl rfl rfl

/-- C5 counterexample: the pipeline output on Scenario 1's input starts with a
    space (the literal between the definition and the first reference), so it
    is not exactly the claimed string. -/
theorem C5_scenario1_counterexample :
    runMain "\\newacronym{cpu}{CPU}{Central Processing Unit} \\gls{cpu} and \\gls{cpu} again \\Glspl{cpu}." ≠
      Except.ok "Central Processing Unit (CPU) and CPU again CPUs." := by
  intro h
  rw [show runMain "\\newacronym{cpu}{CPU}{Central Processing Unit} \\gls{cpu} and \\gls{cpu} again \\Glspl{cpu}." =
      Except.ok " Central Processing Unit (CPU) and CPU again CPUs." from rfl] at h
  injection h with h'
  exact absurd h' (by decide)

/-- C5 amended: the four-pass pipeline on Scenario 1's input produces exactly
    ` Central Processing Unit (CPU) and CPU again CPUs.` (with the leading
    space coming from the literal run between `}` and `\gls`). -/
theorem C5_scenario1_amended :
    runMain "\\newacronym{cpu}{CPU}{Central Processing Unit} \\gls{cpu} and \\gls{cpu} again \\Glspl{cpu}." =
      Except.ok " Central Processing Unit (CPU) and CPU again CPUs." := rfl

/-- C7 counterexample: an input consisting of a single unbalanced opening
    brace in plain literal text parses successfully (braces outside command
    argument groups are ordinary literal characters), so the tokenizer does
    not fail on every input with unbalanced braces. -/
theorem C7_syntax_error_counterexample :
    gls.gls_tokens "\x7b" = some [Entry.literal "\x7b"] ∧
    runMain "\x7b" = Except.ok "\x7b" :=
  ⟨rfl, rfl⟩

/-- C7 amended: when a recognized command keyword is not followed by the
    expected number of well-formed `{...}` groups, the tokenizer pass fails as
    a whole — no Document is produced, and the program stops on the fatal
    parse-error path (brace balance in plain literal text outside command
    arguments is not checked). -/
theorem C7_syntax_error_amended :
    gls.gls_tokens "\\gls\x7bcpu" = none ∧
    runMain "\\gls\x7bcpu" = Except.error "failed to parse the input" ∧
    gls.gls_tokens "\\newacronym{a}{b}" = none ∧
    runMain "\\newacronym{a}{b}" = Except.error "failed to parse the input" :=
  ⟨rfl, rfl, rfl, rfl⟩

/-- C8: `make_uppercase` upper-cases exactly the first character and keeps the
    rest, and the Uppercase+Plural reference outputs compose as
    `make_uppercase(base) ++ "s"` in both the first-use and subsequent-use
    branches (the suffix is appended after the case mapping). -/
theorem C8_upperfirst_before_plural :
    (make_uppercase "" = "" ∧
      ∀ (c : Char) (rest : List Char),
        make_uppercase (String.mk (c :: rest)) = String.mk (Char.toUpper c :: rest)) ∧
    (∀ (d : Dict) (n : String) (a : ast.Abbreviation) (u : Bool),
        d n = some (a, u) →
        Expand.reference d { name := n, flags := ast.Uppercase ||| ast.Plural } =
          Except.ok ((if u then make_uppercase a.shortName ++ "s"
              else make_uppercase a.value ++ "s" ++ " (" ++ a.shortName ++ "s)"),
            updateDict d n (a, true))) := by
  refine ⟨⟨rfl, fun c rest => rfl⟩, ?_⟩
  intro d n a u h
  unfold Expand.reference
  rw [show ({ name := n, flags := ast.Uppercase ||| ast.Plural } : ast.Reference).name = n
    from rfl, h]
  cases u <;>
    simp [ast.None, ast.First, ast.Plural, ast.Uppercase, ast.ModifiersMask,
      show ((3 : Nat) &&& 3) = 3 from rfl, show ((3 : Nat) &&& 4) = 0 from rfl]

/-- C8 witness: the Uppercase+Plural rendering applied to a concrete used
    entry (subsequent use composes as upper-first of the short form plus s). -/
theorem C8_upperfirst_before_plural_witness :
    Expand.reference (updateDict emptyDict "cpu" ({ name := "cpu", shortName := "cpu", value := "central processing unit" }, true)) { name := "cpu", flags := ast.Uppercase ||| ast.Plural } =
      Except.ok (make_uppercase "cpu" ++ "s",
        updateDict (updateDict emptyDict "cpu" ({ name := "cpu", shortName := "cpu", value := "central processing unit" }, true)) "cpu"
          ({ name := "cpu", shortName := "cpu", value := "central processing unit" }, true)) :=
  C8_upperfirst_before_plural.2 _ "cpu"
    { name := "cpu", shortName := "cpu", value := "central processing unit" } true (by rfl)

/-- C10: discarding an unrecognized `\gls`-prefixed token consumes only the
    command word: the brace group textually following `\glsfirst` is not part
    of the discarded token, is tokenized as a literal, and reaches the final
    output verbatim, braces included. -/
theorem C10_discard_keeps_following_group :
    gls.gls_tokens "\\glsfirst{cpu}" = some [Entry.literal "{cpu}"] ∧
    runMain "\\glsfirst{cpu}" = Except.ok "{cpu}" :=
  ⟨rfl, rfl⟩

/-! ### Helper lemmas about the PEG primitives -/

theorem gls.litP_append : ∀ (p x : List Char), gls.litP p (p ++ x) = some ((), x) := by
  intro p
  induction p with
  | nil => intro x; rfl
  | cons c cs ih => intro x; simp [gls.litP, ih]

theorem gls.litP_cons_ne {p c : Char} (ps cs : List Char) (h : c ≠ p) :
    gls.litP (p :: ps) (c :: cs) = none := by
  simp [gls.litP, h]

theorem gls.litP_cons_eq (p : Char) (ps cs : List Char) :
    gls.litP (p :: ps) (p :: cs) = gls.litP ps cs := by
  simp [gls.litP]

theorem gls.litP_none_of_no_prefix : ∀ (p cs : List Char),
    p.isPrefixOf cs = false → gls.litP p cs = none := by
  intro p
  induction p with
  | nil => intro cs h; simp [List.isPrefixOf] at h
  | cons c cs' ih =>
    intro cs h
    cases cs with
    | nil => rfl
    | cons d ds =>
      simp only [List.isPrefixOf, Bool.and_eq_false_iff] at h
      by_cases hcd : d = c
      · subst hcd
        rw [gls.litP_cons_eq]
        refine ih ds ?_
        rcases h with h | h
        · simp at h
        · exact h
      · exact gls.litP_cons_ne _ _ hcd

theorem takeWhile_all_append (p : Char → Bool) :
    ∀ (l r : List Char), l.all p = true → p (r.headD '.') = false →
      (l ++ r).takeWhile p = l ∧ (l ++ r).drop l.length = r := by
  intro l
  induction l with
  | nil =>
    intro r _ hr
    refine ⟨?_, rfl⟩
    cases r with
    | nil => rfl
    | cons h t =>
      simp only [List.headD] at hr
      simp [List.takeWhile, hr]
  | cons c l' ih =>
    intro r hall hr
    simp only [List.all_cons, Bool.and_eq_true] at hall
    obtain ⟨hc, hl'⟩ := hall
    obtain ⟨h1, h2⟩ := ih r hl' hr
    constructor
    · simp [List.takeWhile, hc, h1]
    · exact h2

theorem String_append_nil (s : String) : s ++ "" = s := by
  obtain ⟨d⟩ := s
  show String.mk (d ++ []) = String.mk d
  rw [List.append_nil]

/-! ### Addition-unwrapper lemmas -/

theorem gls.options_spec (opts cs : List Char)
    (h : opts.all (fun c => !(c == ']')) = true) :
    gls.options ('[' :: (opts ++ ']' :: cs)) = some (String.mk opts, cs) := by
  obtain ⟨ht, hd⟩ :=
    takeWhile_all_append (fun c => !(c == ']')) opts (']' :: cs) h (by rfl)
  simp [gls.options, ht, hd]

theorem gls.addition_spec (opts cs : List Char) (content : String) (rest : List Char)
    (hopts : opts.all (fun c => !(c == ']')) = true)
    (hgroup : gls.groupP cs = some (content, rest)) :
    gls.addition ("\\addition".data ++ '[' :: (opts ++ ']' :: cs)) = some (content, rest) := by
  have hlit := gls.litP_append "\\addition".data ('[' :: (opts ++ ']' :: cs))
  simp only [gls.addition]
  rw [hlit]
  simp [gls.options_spec opts cs hopts, hgroup]

theorem gls.addRun_of_no_addition : ∀ (cs : List Char),
    gls.containsAddition cs = false → gls.addRun cs = (cs, []) := by
  intro cs
  induction cs with
  | nil => intro h; rfl
  | cons c cs' ih =>
    intro h
    simp only [gls.containsAddition, Bool.or_eq_false_iff] at h
    obtain ⟨h1, h2⟩ := h
    simp [gls.addRun, h1, ih h2]

theorem gls.addition_none_of_no_prefix (cs : List Char)
    (h : "\\addition".data.isPrefixOf cs = false) : gls.addition cs = none := by
  simp [gls.addition, gls.litP_none_of_no_prefix _ _ h]

theorem gls.addition_tokensF_nil (f : Nat) : gls.addition_tokensF (f + 1) [] = some "" := rfl

/-- C6: the addition unwrapper replaces a `\addition[opts]{content}` occurrence
    with exactly the group's content, discarding the options entirely, and
    continues with the rest; the unwrap is one level (`\addition[x]{A{B}C}`
    gives `A{B}C`, the inner braces kept); and input with no `\addition`
    occurrence passes through unchanged. -/
theorem C6_addition_unwrap :
    (∀ (f : Nat) (opts cs rest : List Char) (content : String),
        opts.all (fun c => !(c == ']')) = true →
        gls.groupP cs = some (content, rest) →
        gls.addition_tokensF (f + 1) ("\\addition".data ++ '[' :: (opts ++ ']' :: cs)) =
          (gls.addition_tokensF f rest).map (fun t => content ++ t)) ∧
    gls.addition_tokens "\\addition[x]{A{B}C}" = some "A{B}C" ∧
    (∀ s : String, gls.containsAddition s.data = false → gls.addition_tokens s = some s) := by
  refine ⟨?_, rfl, ?_⟩
  · intro f opts cs rest content hopts hgroup
    simp only [gls.addition_tokensF, gls.addition_spec opts cs content rest hopts hgroup]
  · intro s h
    obtain ⟨d⟩ := s
    cases d with
    | nil => rfl
    | cons c cs' =>
      have h' : gls.containsAddition (c :: cs') = false := h
      have h1 : "\\addition".data.isPrefixOf (c :: cs') = false := by
        simp only [gls.containsAddition, Bool.or_eq_false_iff] at h'
        exact h'.1
      show gls.addition_tokensF ((String.mk (c :: cs')).length + 1) (c :: cs') =
        some (String.mk (c :: cs'))
      rw [show (String.mk (c :: cs')).length + 1 = (cs'.length + 1) + 1 from rfl]
      simp only [gls.addition_tokensF, gls.addition_none_of_no_prefix _ h1,
        gls.addRun_of_no_addition _ h']
      simp [show gls.addition ([] : List Char) = none from rfl,
        show gls.addRun [] = ([], []) from rfl, String_append_nil]

/-- C6 witness: the unwrap equation at a concrete occurrence
    `\addition[x]{A}!` (options `x`, content `A`, trailing `!`). -/
theorem C6_addition_unwrap_witness :
    gls.addition_tokensF 6 ("\\addition".data ++ '[' :: (['x'] ++ ']' :: "{A}!".data)) =
      (gls.addition_tokensF 5 ['!']).map (fun t => "A" ++ t) :=
  C6_addition_unwrap.1 5 ['x'] "{A}!".data ['!'] "A" (by decide) (by rfl)

/-! ### Tokenizer lemmas for unrecognized gls-prefixed commands -/

theorem gls.alphaChar_ne_brace {c : Char} (h : gls.alphaChar c = true) : c ≠ '{' := by
  intro hEq
  rw [hEq] at h
  exact absurd h (by decide)

theorem gls.group_not_open : ∀ (f : Nat) (c : Char) (cs : List Char), c ≠ '{' →
    gls.group f (c :: cs) = none := by
  intro f c cs h
  cases f with
  | zero => rfl
  | succ f' =>
    simp only [gls.group]
    split
    · next cs₁ heq =>
      injection heq with h1 h2
      exact absurd h1 h
    · rfl

theorem gls.groupP_not_open (c : Char) (cs : List Char) (h : c ≠ '{') :
    gls.groupP (c :: cs) = none :=
  gls.group_not_open _ c cs h

/-- C9: a token formed by `\gls` followed by one or more letters that is not
    one of the five recognized reference forms is recognized and silently
    discarded by the tokenizer: parsing `\gls<letters>` followed by any rest
    (not starting with a letter) behaves exactly like parsing the rest alone —
    no entry is produced and no error arises from the token. -/
theorem C9_unrecognized_gls_discarded :
    ∀ (f : Nat) (w rest : List Char),
      w ≠ [] → w.all gls.alphaChar = true →
      gls.alphaChar (rest.headD '.') = false →
      ("\\gls".data ++ w) ∉ ["\\gls".data, "\\Gls".data, "\\glspl".data,
        "\\Glspl".data, "\\Glsfirst".data] →
      gls.gls_tokensF (f + 1) ("\\gls".data ++ (w ++ rest)) = gls.gls_tokensF f rest := by
  intro f w rest hw hall hhead hforms
  cases w with
  | nil => exact absurd rfl hw
  | cons c1 w1 =>
  simp only [List.all_cons, Bool.and_eq_true] at hall
  obtain ⟨hc1, hall1⟩ := hall
  have hL : "\\gls".data ++ ((c1 :: w1) ++ rest) =
      '\\' :: 'g' :: 'l' :: 's' :: (c1 :: (w1 ++ rest)) := rfl
  rw [hL]
  have hgroupfail : gls.groupP (c1 :: (w1 ++ rest)) = none :=
    gls.groupP_not_open _ _ (gls.alphaChar_ne_brace hc1)
  have hnewa : gls.newacronym ('\\' :: 'g' :: 'l' :: 's' :: (c1 :: (w1 ++ rest))) = none := by
    have hlit : gls.litP "\\newacronym".data
        ('\\' :: 'g' :: 'l' :: 's' :: (c1 :: (w1 ++ rest))) = none := by
      rw [show "\\newacronym".data =
        '\\' :: 'n' :: ('e' :: 'w' :: 'a' :: 'c' :: 'r' :: 'o' :: 'n' :: 'y' :: 'm' :: [])
        from rfl, gls.litP_cons_eq]
      exact gls.litP_cons_ne _ _ (by decide)
    simp [gls.newacronym, hlit]
  have hgls : gls.gls ('\\' :: 'g' :: 'l' :: 's' :: (c1 :: (w1 ++ rest))) = none := by
    have hlit : gls.litP "\\gls".data ('\\' :: 'g' :: 'l' :: 's' :: (c1 :: (w1 ++ rest))) =
        some ((), c1 :: (w1 ++ rest)) := gls.litP_append "\\gls".data (c1 :: (w1 ++ rest))
    simp [gls.gls, hlit, hgroupfail]
  have hGls : gls.Gls ('\\' :: 'g' :: 'l' :: 's' :: (c1 :: (w1 ++ rest))) = none := by
    have hlit : gls.litP "\\Gls".data ('\\' :: 'g' :: 'l' :: 's' :: (c1 :: (w1 ++ rest))) =
        none := by
      rw [show "\\Gls".data = '\\' :: 'G' :: ('l' :: 's' :: []) from rfl, gls.litP_cons_eq]
      exact gls.litP_cons_ne _ _ (by decide)
    simp [gls.Gls, hlit]
  have hGlsfirst : gls.Glsfirst ('\\' :: 'g' :: 'l' :: 's' :: (c1 :: (w1 ++ rest))) = none := by
    have hlit : gls.litP "\\Glsfirst".data
        ('\\' :: 'g' :: 'l' :: 's' :: (c1 :: (w1 ++ rest))) = none := by
      rw [show "\\Glsfirst".data =
        '\\' :: 'G' :: ('l' :: 's' :: 'f' :: 'i' :: 'r' :: 's' :: 't' :: []) from rfl,
        gls.litP_cons_eq]
      exact gls.litP_cons_ne _ _ (by decide)
    simp [gls.Glsfirst, hlit]
  have hGlspl : gls.Glspl ('\\' :: 'g' :: 'l' :: 's' :: (c1 :: (w1 ++ rest))) = none := by
    have hlit : gls.litP "\\Glspl".data
        ('\\' :: 'g' :: 'l' :: 's' :: (c1 :: (w1 ++ rest))) = none := by
      rw [show "\\Glspl".data = '\\' :: 'G' :: ('l' :: 's' :: 'p' :: 'l' :: []) from rfl,
        gls.litP_cons_eq]
      exact gls.litP_cons_ne _ _ (by decide)
    simp [gls.Glspl, hlit]
  have hglspl : gls.glspl ('\\' :: 'g' :: 'l' :: 's' :: (c1 :: (w1 ++ rest))) = none := by
    have hlit2 : gls.litP "\\glspl".data ('\\' :: 'g' :: 'l' :: 's' :: (c1 :: (w1 ++ rest))) =
        gls.litP ('p' :: 'l' :: []) (c1 :: (w1 ++ rest)) := by
      rw [show "\\glspl".data = '\\' :: 'g' :: 'l' :: 's' :: ('p' :: 'l' :: []) from rfl,
        gls.litP_cons_eq, gls.litP_cons_eq, gls.litP_cons_eq, gls.litP_cons_eq]
    by_cases hc1p : c1 = 'p'
    · subst hc1p
      cases w1 with
      | nil =>
        simp only [List.nil_append] at hlit2
        have hstep : gls.litP ('l' :: []) rest = none := by
          cases rest with
          | nil => rfl
          | cons r rs =>
            have hr : gls.alphaChar r = false := by simpa using hhead
            exact gls.litP_cons_ne _ _ (fun hEq => by rw [hEq] at hr; exact absurd hr (by decide))
        have hlitres := hlit2.trans ((gls.litP_cons_eq 'p' ('l' :: []) rest).trans hstep)
        simp [gls.glspl, hlitres]
      | cons c2 w2 =>
        simp only [List.cons_append] at hlit2
        simp only [List.all_cons, Bool.and_eq_true] at hall1
        obtain ⟨hc2, hall2⟩ := hall1
        by_cases hc2l : c2 = 'l'
        · subst hc2l
          cases w2 with
          | nil =>
            exact absurd (show ("\\gls".data ++ ('p' :: 'l' :: [])) ∈
              ["\\gls".data, "\\Gls".data, "\\glspl".data, "\\Glspl".data, "\\Glsfirst".data]
              from by decide) hforms
          | cons c3 w3 =>
            simp only [List.all_cons, Bool.and_eq_true] at hall2
            obtain ⟨hc3, hall3⟩ := hall2
            simp only [List.cons_append] at hlit2
            have hsome : gls.litP ('p' :: 'l' :: []) ('p' :: 'l' :: c3 :: (w3 ++ rest)) =
                some ((), c3 :: (w3 ++ rest)) := by
              rw [gls.litP_cons_eq, gls.litP_cons_eq]
              simp [gls.litP]
            have hlitres := hlit2.trans hsome
            have hg3 : gls.groupP (c3 :: (w3 ++ rest)) = none :=
              gls.groupP_not_open _ _ (gls.alphaChar_ne_brace hc3)
            simp [gls.glspl, hlitres, hg3]
        · have hlitres := hlit2.trans
            ((gls.litP_cons_eq 'p' ('l' :: []) (c2 :: (w2 ++ rest))).trans
              (gls.litP_cons_ne _ _ hc2l))
          simp [gls.glspl, hlitres]
    · have hlitres := hlit2.trans (gls.litP_cons_ne _ _ hc1p)
      simp [gls.glspl, hlitres]
  have hcmds : gls.gls_commands ('\\' :: 'g' :: 'l' :: 's' :: (c1 :: (w1 ++ rest))) = none := by
    simp [gls.gls_commands, hnewa, hgls, hglspl, hGls, hGlsfirst, hGlspl]
  have hother : gls.gls_other ('\\' :: 'g' :: 'l' :: 's' :: (c1 :: (w1 ++ rest))) =
      some ((), rest) := by
    have hlit : gls.litP "\\gls".data ('\\' :: 'g' :: 'l' :: 's' :: (c1 :: (w1 ++ rest))) =
        some ((), c1 :: (w1 ++ rest)) := gls.litP_append "\\gls".data (c1 :: (w1 ++ rest))
    obtain ⟨ht, hd⟩ := takeWhile_all_append gls.alphaChar (c1 :: w1) rest
      (by simp [hc1, hall1]) hhead
    simp only [List.cons_append] at ht hd
    simp [gls.gls_other, hlit, ht, hd, hc1, hall1]
  simp only [gls.gls_tokensF, hcmds, hother]

/-- C9 witness: the discard equation applied to the concrete token `\glsfirst`
    followed by the non-letter rest `{cpu}`. -/
theorem C9_unrecognized_gls_discarded_witness :
    gls.gls_tokensF 15 ("\\gls".data ++ ("first".data ++ "{cpu}".data)) =
      gls.gls_tokensF 14 "{cpu}".data :=
  C9_unrecognized_gls_discarded 14 "first".data "{cpu}".data (by decide) (by decide)
    (by decide) (by decide)
